import Mathlib

/-!
Shallow embedding of the `queuectl_system` job queue core.

Source files embedded:
* `persistence.py` — `SQLiteJobRepository` over the `jobs` table: `add`,
  `update_state`, `requeue`, `dequeue` (the atomic claim query).
* `core.py` — `WorkerConfig`, `complete_job`, `fail_job`, `calculate_backoff`.
* `worker.py` — `Worker.process_job` outcome dispatch.
* `db.py` — `DB_PATH` resolution from the ambient environment.

Modelling conventions:
* The SQLite `jobs` table is a `List Job` of rows; `UPDATE ... WHERE` is a
  `List.map` guarded by the WHERE condition (`id` is the primary key).
* Timestamps are ISO-8601 UTC strings at second precision in the store; the
  fixed-width format makes SQL string comparison agree with chronological
  order, so they are modelled as rationals (`Time := ℚ`) with the usual order.
  `now` is passed explicitly where the code calls `get_iso_now()` /
  `strftime('now')`.
* `random.uniform(0.8, 1.2)` is modelled by an explicit `jitter` argument;
  theorems that depend on it hypothesise `0.8 ≤ jitter ≤ 1.2`.
* SQL `NULL` is `Option.none`; `COALESCE(?, col)` keeps `col` when the bound
  parameter is `none`.
-/

namespace Queuectl

/-- Timestamp, ordered as the ISO-8601 strings of the store are. -/
abbrev Time := ℚ

/-- The `state` column of the `jobs` table; the schema in `db.py` constrains it
with `CHECK(state IN ('pending','processing','completed','failed','dead'))`. -/
inductive JobState where
  | pending
  | processing
  | completed
  | failed
  | dead
  deriving DecidableEq, Repr

/-- A row of the `jobs` table (`db.py` schema). -/
structure Job where
  id : String
  command : String
  state : JobState
  attempts : Nat
  max_retries : Nat
  priority : Int
  run_at : Option Time
  created_at : Time
  updated_at : Time
  stdout : Option String
  stderr : Option String
  deriving DecidableEq, Repr

/-- `core.py` `WorkerConfig`: container for worker configuration;
`backoff_base` is `float(backoff_base)` in the source. -/
structure WorkerConfig where
  backoff_base : ℚ
  deriving DecidableEq, Repr

/-- `persistence.py` `SQLiteJobRepository.add`: INSERT of a new row with
`state = 'pending'` and the schema defaults `attempts = 0`,
`stdout = stderr = NULL`; `created_at` and `updated_at` are both `now`. -/
def add (store : List Job) (id command : String) (max_retries : Nat)
    (priority : Int) (run_at : Option Time) (now : Time) : List Job :=
  store ++ [{ id := id, command := command, state := .pending, attempts := 0,
              max_retries := max_retries, priority := priority,
              run_at := run_at, created_at := now, updated_at := now,
              stdout := none, stderr := none }]

/-- The row-level effect of `SQLiteJobRepository.update_state`'s UPDATE:
`state` and `updated_at` and `run_at` are set unconditionally
(`run_at = ?` with the Python default `None` binding SQL `NULL`), while
`stdout` and `stderr` go through `COALESCE(?, col)`. -/
def applyUpdate (state : JobState) (stdout stderr : Option String)
    (run_at : Option Time) (now : Time) (j : Job) : Job :=
  { j with
    state := state
    updated_at := now
    stdout := match stdout with
      | some s => some s
      | none => j.stdout
    stderr := match stderr with
      | some s => some s
      | none => j.stderr
    run_at := run_at }

/-- `persistence.py` `SQLiteJobRepository.update_state`: UPDATE of the row
whose `id` matches (the primary key). -/
def update_state (store : List Job) (job_id : String) (state : JobState)
    (stdout stderr : Option String) (run_at : Option Time) (now : Time) :
    List Job :=
  store.map fun j => if j.id = job_id then
    applyUpdate state stdout stderr run_at now j else j

/-- The row-level effect of `SQLiteJobRepository.requeue`'s UPDATE on a
matching row. -/
def requeueReset (now : Time) (j : Job) : Job :=
  { j with state := .pending, attempts := 0, updated_at := now,
           run_at := none, stdout := none, stderr := none }

/-- `persistence.py` `SQLiteJobRepository.requeue`: UPDATE guarded by
`WHERE id = ? AND state = 'dead'`; returns `cursor.rowcount > 0`, i.e.
whether some row matched the WHERE clause. -/
def requeue (store : List Job) (job_id : String) (now : Time) :
    Bool × List Job :=
  (store.any (fun j => j.id == job_id && j.state == .dead),
   store.map fun j => if j.id = job_id ∧ j.state = .dead then
     requeueReset now j else j)

/-- Eligibility condition of the claim subquery in
`SQLiteJobRepository.dequeue`: `state = 'pending' AND (run_at IS NULL OR
run_at <= strftime('now'))`. -/
def eligible (now : Time) (j : Job) : Bool :=
  j.state == .pending &&
    (match j.run_at with
      | none => true
      | some t => decide (t ≤ now))

/-- One comparison step of the claim subquery's
`ORDER BY priority DESC, created_at ASC`: keep `b` over `a` exactly when `b`
sorts strictly earlier. -/
def pickBetter (a b : Job) : Job :=
  if a.priority < b.priority ∨ (b.priority = a.priority ∧ b.created_at < a.created_at)
  then b else a

/-- The claim subquery of `SQLiteJobRepository.dequeue`:
`SELECT id FROM jobs WHERE <eligible> ORDER BY priority DESC, created_at ASC
LIMIT 1` (here returning the whole selected row). -/
def selectJob (now : Time) (store : List Job) : Option Job :=
  match store.filter (eligible now) with
  | [] => none
  | h :: t => some (t.foldl pickBetter h)

/-- The SET clause of the claim UPDATE in `SQLiteJobRepository.dequeue`:
`state = 'processing', updated_at = strftime('now'), attempts = attempts + 1`
(note: `run_at` is not touched). -/
def claimJob (now : Time) (j : Job) : Job :=
  { j with state := .processing, updated_at := now, attempts := j.attempts + 1 }

/-- `persistence.py` `SQLiteJobRepository.dequeue`: the atomic
`UPDATE ... WHERE id = (SELECT ...) RETURNING *` claim query; returns the
post-update row, or `none` when the queue is empty. -/
def dequeue (now : Time) (store : List Job) : Option Job × List Job :=
  match selectJob now store with
  | none => (none, store)
  | some pre =>
    (some (claimJob now pre),
     store.map fun r => if r.id = pre.id then claimJob now pre else r)

/-- The `try/except sqlite3.OperationalError` wrapper of
`SQLiteJobRepository.dequeue`: when the store reports transient lock
contention, the transaction is rolled back (store unchanged) and the method
returns `None` instead of raising. -/
def dequeueWithContention (contended : Bool) (now : Time) (store : List Job) :
    Option Job × List Job :=
  if contended then (none, store) else dequeue now store

/-- `core.py` `calculate_backoff`: `delay = base ** attempts * jitter`,
`next_run_at = now + delay` (formatted for the store). -/
def calculate_backoff (job : Job) (config : WorkerConfig)
    (now jitter : ℚ) : ℚ × Time :=
  let delay := config.backoff_base ^ job.attempts * jitter
  (delay, now + delay)

/-- `core.py` `complete_job`: `update_state(id, 'completed', stdout, stderr)`
(Python default `run_at=None` binds SQL `NULL`). -/
def complete_job (store : List Job) (job : Job) (stdout stderr : String)
    (now : Time) : List Job :=
  update_state store job.id .completed (some stdout) (some stderr) none now

/-- `core.py` `fail_job`: if `attempts >= max_retries`, move to the DLQ with
`update_state(id, 'dead', stderr=stderr)`; otherwise reschedule with
`update_state(id, 'pending', stderr=stderr, run_at=next_run_at)` where
`next_run_at` comes from `calculate_backoff`. -/
def fail_job (store : List Job) (job : Job) (stderr : String)
    (config : WorkerConfig) (now jitter : ℚ) : List Job :=
  if job.max_retries ≤ job.attempts then
    update_state store job.id .dead none (some stderr) none now
  else
    let r := calculate_backoff job config now jitter
    update_state store job.id .pending none (some stderr) (some r.2) now

/-- Outcome of running a claimed job's command (`subprocess.run` in
`worker.py`): normal exit with captured output, `subprocess.TimeoutExpired`,
or any other launch exception. -/
inductive RunResult where
  | exited (returncode : Int) (stdout stderr : String)
  | timedOut
  | launchError (msg : String)
  deriving DecidableEq, Repr

/-- `worker.py` hard-coded job timeout (`JOB_TIMEOUT_SECONDS = 60`). -/
def JOB_TIMEOUT_SECONDS : Nat := 60

/-- `worker.py` `Worker.process_job`: dispatch on the subprocess outcome.
Exit code 0 → `complete_job`; non-zero exit → `fail_job` with
`result.stderr or "Job failed with non-zero exit code"` (Python `or`: the
default is used when captured stderr is the empty string); timeout →
`fail_job` with the timeout message; any other exception → `fail_job` with
`"Subprocess execution failed: ..."`. -/
def process_job (store : List Job) (job : Job) (result : RunResult)
    (config : WorkerConfig) (now jitter : ℚ) : List Job :=
  match result with
  | .exited rc out err =>
    if rc = 0 then
      complete_job store job out err now
    else
      fail_job store job
        (if err = "" then "Job failed with non-zero exit code" else err)
        config now jitter
  | .timedOut =>
    fail_job store job
      ("Job timed out after " ++ toString JOB_TIMEOUT_SECONDS ++ "s.")
      config now jitter
  | .launchError msg =>
    fail_job store job ("Subprocess execution failed: " ++ msg)
      config now jitter

/-- An ambient process environment: a partial map from variable names to
values. -/
def Env : Type := String → Option String

/-- `db.py` line 5:
`DB_PATH = os.environ.get("QUEUECTL_DB_PATH", "queue.db")` — the storage
location every repository operation connects to. -/
def DB_PATH (env : Env) : String :=
  (env "QUEUECTL_DB_PATH").getD "queue.db"

/-- Specification-side ordering of the claim subquery: row `a` sorts no later
than row `b` under `ORDER BY priority DESC, created_at ASC`. -/
def prefers (a b : Job) : Prop :=
  b.priority < a.priority ∨
    (a.priority = b.priority ∧ a.created_at ≤ b.created_at)

instance (a b : Job) : Decidable (prefers a b) := by
  unfold prefers; infer_instance

/-- The operations through which the core mutates the store: `add` and
`requeue` (CLI), `dequeue` (worker poll loop, possibly hitting contention),
and `complete_job` / `fail_job` (worker outcome reporting). -/
inductive CoreOp where
  | addOp (id command : String) (max_retries : Nat) (priority : Int)
      (run_at : Option Time) (now : Time)
  | claimOp (contended : Bool) (now : Time)
  | completeOp (job : Job) (stdout stderr : String) (now : Time)
  | failOp (job : Job) (stderr : String) (config : WorkerConfig)
      (now jitter : ℚ)
  | requeueOp (job_id : String) (now : Time)

/-- Apply one core operation to the store (ignoring returned values). -/
def applyOp (store : List Job) : CoreOp → List Job
  | .addOp id cmd mr pri ra now => add store id cmd mr pri ra now
  | .claimOp c now => (dequeueWithContention c now store).2
  | .completeOp job out err now => complete_job store job out err now
  | .failOp job err config now jitter => fail_job store job err config now jitter
  | .requeueOp id now => (requeue store id now).2

/-- The store reached from the empty store by a sequence of core
operations. -/
def runOps (ops : List CoreOp) : List Job :=
  ops.foldl applyOp []

/-- A sample pending row, used to instantiate theorems on concrete data. -/
def sampleJob : Job :=
  { id := "job-a", command := "echo hi", state := .pending, attempts := 3,
    max_retries := 5, priority := 0, run_at := none, created_at := 0,
    updated_at := 0, stdout := none, stderr := none }

/-- A sample pending row carrying a scheduled `run_at`. -/
def scheduledJob : Job :=
  { sampleJob with id := "job-s", run_at := some 1 }

/-- A sample pending row with a higher priority and a later creation time. -/
def hiJob : Job :=
  { sampleJob with id := "job-h", priority := 5, created_at := 2 }

/-- A sample row in the dead-letter state. -/
def deadJob : Job :=
  { sampleJob with id := "job-d", state := .dead, attempts := 4,
                   stdout := some "partial", stderr := some "boom" }

/-- A sample processing row about to be failed for the first time. -/
def firstTryJob : Job :=
  { sampleJob with id := "job-f", state := .processing, attempts := 1,
                   max_retries := 3 }

/-- A sample environment that sets the storage-location variable. -/
def envWithDbPath : Env :=
  fun k => if k = "QUEUECTL_DB_PATH" then some "other.db" else none

/-- A sample environment that sets every variable to `"other.db"`. -/
def envAllOther : Env :=
  fun _ => some "other.db"

/-- The empty environment. -/
def envEmpty : Env :=
  fun _ => none

/-! ## Theorems -/

/-- C5: for every `attempts` and every nonnegative `base`, and every jitter
value `random.uniform(0.8, 1.2)` can produce, the delay computed by
`calculate_backoff` lies within `[0.8 * base^attempts, 1.2 * base^attempts]`,
and the returned `next_run_at` is the current time plus that delay (the
store's timestamp format being modelled by the time axis itself). -/
theorem calculate_backoff_spec (job : Job) (config : WorkerConfig)
    (now jitter : ℚ) (hbase : 0 ≤ config.backoff_base)
    (hj₁ : (4 : ℚ)/5 ≤ jitter) (hj₂ : jitter ≤ (6 : ℚ)/5) :
    (4 : ℚ)/5 * config.backoff_base ^ job.attempts ≤
        (calculate_backoff job config now jitter).1 ∧
    (calculate_backoff job config now jitter).1 ≤
        (6 : ℚ)/5 * config.backoff_base ^ job.attempts ∧
    (calculate_backoff job config now jitter).2 =
        now + (calculate_backoff job config now jitter).1 := by
  have hpow : (0 : ℚ) ≤ config.backoff_base ^ job.attempts :=
    pow_nonneg hbase _
  refine ⟨?_, ?_, rfl⟩
  · have h := mul_le_mul_of_nonneg_left hj₁ hpow
    calc (4 : ℚ)/5 * config.backoff_base ^ job.attempts
        = config.backoff_base ^ job.attempts * ((4 : ℚ)/5) := by ring
      _ ≤ config.backoff_base ^ job.attempts * jitter := h
      _ = (calculate_backoff job config now jitter).1 := rfl
  · have h := mul_le_mul_of_nonneg_left hj₂ hpow
    calc (calculate_backoff job config now jitter).1
        = config.backoff_base ^ job.attempts * jitter := rfl
      _ ≤ config.backoff_base ^ job.attempts * ((6 : ℚ)/5) := h
      _ = (6 : ℚ)/5 * config.backoff_base ^ job.attempts := by ring

/-- Witness for `calculate_backoff_spec` at `base = 2`, `attempts = 3`,
`jitter = 1`. -/
theorem calculate_backoff_spec_witness :
    (0 : ℚ) ≤ (⟨2⟩ : WorkerConfig).backoff_base ∧
    (4 : ℚ)/5 ≤ (1 : ℚ) ∧ (1 : ℚ) ≤ (6 : ℚ)/5 ∧
    ((4 : ℚ)/5 * (⟨2⟩ : WorkerConfig).backoff_base ^ sampleJob.attempts ≤
        (calculate_backoff sampleJob ⟨2⟩ 0 1).1 ∧
     (calculate_backoff sampleJob ⟨2⟩ 0 1).1 ≤
        (6 : ℚ)/5 * (⟨2⟩ : WorkerConfig).backoff_base ^ sampleJob.attempts ∧
     (calculate_backoff sampleJob ⟨2⟩ 0 1).2 =
        0 + (calculate_backoff sampleJob ⟨2⟩ 0 1).1) :=
  ⟨by norm_num, by norm_num, by norm_num,
   calculate_backoff_spec sampleJob ⟨2⟩ 0 1 (by norm_num) (by norm_num)
     (by norm_num)⟩

/-- C6: `update_state` rewrites the matching row with `state`, `updated_at`
and `run_at` set unconditionally to the supplied values, while `stdout` and
`stderr` are written only if provided — a `none` argument leaves the stored
value untouched; rows with other ids are untouched. -/
theorem update_state_spec (store : List Job) (job_id : String)
    (state : JobState) (stdout stderr : Option String) (run_at : Option Time)
    (now : Time) :
    (∀ j ∈ store, j.id = job_id →
        applyUpdate state stdout stderr run_at now j ∈
          update_state store job_id state stdout stderr run_at now) ∧
    (∀ j ∈ store, j.id ≠ job_id →
        j ∈ update_state store job_id state stdout stderr run_at now) ∧
    (∀ j : Job,
        (applyUpdate state stdout stderr run_at now j).state = state ∧
        (applyUpdate state stdout stderr run_at now j).updated_at = now ∧
        (applyUpdate state stdout stderr run_at now j).run_at = run_at ∧
        (stdout = none →
          (applyUpdate state stdout stderr run_at now j).stdout = j.stdout) ∧
        (∀ s, stdout = some s →
          (applyUpdate state stdout stderr run_at now j).stdout = some s) ∧
        (stderr = none →
          (applyUpdate state stdout stderr run_at now j).stderr = j.stderr) ∧
        (∀ s, stderr = some s →
          (applyUpdate state stdout stderr run_at now j).stderr = some s)) := by
  refine ⟨?_, ?_, ?_⟩
  · intro j hj hid
    have h := List.mem_map_of_mem
      (fun j => if j.id = job_id then
        applyUpdate state stdout stderr run_at now j else j) hj
    simpa [update_state, hid] using h
  · intro j hj hid
    have h := List.mem_map_of_mem
      (fun j => if j.id = job_id then
        applyUpdate state stdout stderr run_at now j else j) hj
    simpa [update_state, hid] using h
  · intro j
    refine ⟨rfl, rfl, rfl, ?_, ?_, ?_, ?_⟩
    · intro h; subst h; rfl
    · intro s h; subst h; rfl
    · intro h; subst h; rfl
    · intro s h; subst h; rfl

/-- Witness for `update_state_spec`: a partial report with `stdout` provided
and `stderr` omitted, applied to the sample store. -/
theorem update_state_spec_witness :
    sampleJob ∈ [sampleJob] ∧ sampleJob.id = "job-a" ∧
    applyUpdate .completed (some "out") none none 7 sampleJob ∈
      update_state [sampleJob] "job-a" .completed (some "out") none none 7 :=
  ⟨by simp, rfl,
   (update_state_spec [sampleJob] "job-a" .completed (some "out") none none
     7).1 sampleJob (by simp) rfl⟩

/-- C8: when the storage layer reports transient contention during a claim,
`dequeue` returns empty instead of raising and the store is left unchanged
by the rolled-back transaction; absent contention the claim proceeds as
usual. -/
theorem dequeue_contention_spec (now : Time) (store : List Job) :
    (dequeueWithContention true now store).1 = none ∧
    (dequeueWithContention true now store).2 = store ∧
    dequeueWithContention false now store = dequeue now store :=
  ⟨rfl, rfl, rfl⟩

/-- C9 counterexample: the storage location is read from the ambient
environment variable `QUEUECTL_DB_PATH` in `db.py`, so two runs that differ
only in environment variables resolve different storage locations — the
claim that no core behaviour depends on ambient environment state is false
on the code. -/
theorem db_path_env_dependent :
    DB_PATH envWithDbPath ≠ DB_PATH envEmpty := by
  decide

/-- C9 amended: the dependence of the core on the ambient environment is
confined to the storage-location variable — two environments that agree on
`QUEUECTL_DB_PATH` resolve the same storage location. -/
theorem db_path_depends_only_on_its_var (env₁ env₂ : Env)
    (h : env₁ "QUEUECTL_DB_PATH" = env₂ "QUEUECTL_DB_PATH") :
    DB_PATH env₁ = DB_PATH env₂ := by
  unfold DB_PATH
  rw [h]

/-- Witness for `db_path_depends_only_on_its_var`: two distinct environments
agreeing on the storage-location variable. -/
theorem db_path_depends_only_on_its_var_witness :
    envWithDbPath "QUEUECTL_DB_PATH" = envAllOther "QUEUECTL_DB_PATH" ∧
    DB_PATH envWithDbPath = DB_PATH envAllOther :=
  ⟨by decide,
   db_path_depends_only_on_its_var envWithDbPath envAllOther (by decide)⟩

/-- C2: on a failure report, if the job's attempts have reached
`max_retries` the row is moved to `dead` with stderr recorded and no
scheduling (`run_at` cleared); otherwise it is set back to `pending` with
stderr recorded and `run_at` set by the backoff policy from the job's
current attempts, strictly in the future of the failure time. The jitter
hypothesis is what `random.uniform(0.8, 1.2)` guarantees; the backoff base
is the (positive) configured one. -/
theorem fail_job_spec (store : List Job) (job : Job) (s : String)
    (config : WorkerConfig) (now jitter : ℚ)
    (hbase : 0 < config.backoff_base) (hj : (4 : ℚ)/5 ≤ jitter) :
    (job.max_retries ≤ job.attempts →
        fail_job store job s config now jitter =
          store.map fun r => if r.id = job.id then
            { r with state := .dead, updated_at := now,
                     stderr := some s, run_at := none } else r) ∧
    (job.attempts < job.max_retries →
        now < now + config.backoff_base ^ job.attempts * jitter ∧
        fail_job store job s config now jitter =
          store.map fun r => if r.id = job.id then
            { r with state := .pending, updated_at := now,
                     stderr := some s,
                     run_at := some (now +
                       config.backoff_base ^ job.attempts * jitter) }
          else r) := by
  constructor
  · intro h
    unfold fail_job
    rw [if_pos h]
    rfl
  · intro h
    have h' : ¬ job.max_retries ≤ job.attempts := not_le.mpr h
    have hjpos : (0 : ℚ) < jitter := lt_of_lt_of_le (by norm_num) hj
    have hd : (0 : ℚ) < config.backoff_base ^ job.attempts * jitter :=
      mul_pos (pow_pos hbase _) hjpos
    refine ⟨by linarith, ?_⟩
    unfold fail_job
    rw [if_neg h']
    rfl

/-- Witness for `fail_job_spec`: a first failure of a job with
`attempts = 1 < max_retries = 3`, base 2, jitter 1. -/
theorem fail_job_spec_witness :
    (0 : ℚ) < (⟨2⟩ : WorkerConfig).backoff_base ∧ (4 : ℚ)/5 ≤ (1 : ℚ) ∧
    ((firstTryJob.max_retries ≤ firstTryJob.attempts →
        fail_job [firstTryJob] firstTryJob "err" ⟨2⟩ 10 1 =
          [firstTryJob].map fun r => if r.id = firstTryJob.id then
            { r with state := .dead, updated_at := 10,
                     stderr := some "err", run_at := none } else r) ∧
     (firstTryJob.attempts < firstTryJob.max_retries →
        (10 : ℚ) < 10 + (⟨2⟩ : WorkerConfig).backoff_base ^
          firstTryJob.attempts * 1 ∧
        fail_job [firstTryJob] firstTryJob "err" ⟨2⟩ 10 1 =
          [firstTryJob].map fun r => if r.id = firstTryJob.id then
            { r with state := .pending, updated_at := 10,
                     stderr := some "err",
                     run_at := some (10 + (⟨2⟩ : WorkerConfig).backoff_base ^
                       firstTryJob.attempts * 1) }
          else r)) :=
  ⟨by norm_num, by norm_num,
   fail_job_spec [firstTryJob] firstTryJob "err" ⟨2⟩ 10 1 (by norm_num)
     (by norm_num)⟩

/-- C3: `requeue` reports success exactly when a row with the given id is in
state `dead`; a successful requeue resets that row (attempts 0, `run_at`,
`stdout`, `stderr` cleared, state `pending`), while on failure the store is
returned entirely unchanged (a boolean no-op, never an error — the model is
a total function). -/
theorem requeue_spec (store : List Job) (job_id : String) (now : Time) :
    ((requeue store job_id now).1 = true ↔
        ∃ j ∈ store, j.id = job_id ∧ j.state = .dead) ∧
    ((requeue store job_id now).1 = false →
        (requeue store job_id now).2 = store) ∧
    (∀ j ∈ store, j.id = job_id → j.state = .dead →
        requeueReset now j ∈ (requeue store job_id now).2) ∧
    (∀ j ∈ store, ¬(j.id = job_id ∧ j.state = .dead) →
        j ∈ (requeue store job_id now).2) ∧
    (∀ j : Job, (requeueReset now j).state = .pending ∧
        (requeueReset now j).attempts = 0 ∧
        (requeueReset now j).run_at = none ∧
        (requeueReset now j).stdout = none ∧
        (requeueReset now j).stderr = none ∧
        (requeueReset now j).id = j.id) := by
  refine ⟨?_, ?_, ?_, ?_, ?_⟩
  · simp [requeue, List.any_eq_true]
  · intro h
    simp only [requeue] at h ⊢
    have hall : ∀ j ∈ store,
        (if j.id = job_id ∧ j.state = .dead then requeueReset now j else j)
          = j := by
      intro j hj
      rw [if_neg]
      rintro ⟨h1, h2⟩
      have htrue : (store.any fun j => j.id == job_id && j.state == .dead)
          = true :=
        List.any_eq_true.mpr ⟨j, hj, by simp [h1, h2]⟩
      rw [htrue] at h
      cases h
    calc store.map (fun j =>
          if j.id = job_id ∧ j.state = .dead then requeueReset now j else j)
        = store.map id := List.map_congr_left hall
      _ = store := List.map_id store
  · intro j hj h1 h2
    have h := List.mem_map_of_mem (fun j =>
      if j.id = job_id ∧ j.state = .dead then requeueReset now j else j) hj
    simpa [requeue, h1, h2] using h
  · intro j hj hno
    have h := List.mem_map_of_mem (fun j =>
      if j.id = job_id ∧ j.state = .dead then requeueReset now j else j) hj
    simpa [requeue, if_neg hno] using h
  · intro j
    exact ⟨rfl, rfl, rfl, rfl, rfl, rfl⟩

/-- Witness for `requeue_spec`: requeueing the sample dead row succeeds and
yields the reset row. -/
theorem requeue_spec_witness :
    deadJob ∈ [deadJob] ∧ deadJob.id = "job-d" ∧ deadJob.state = .dead ∧
    requeueReset 9 deadJob ∈ (requeue [deadJob] "job-d" 9).2 :=
  ⟨by simp, rfl, rfl,
   (requeue_spec [deadJob] "job-d" 9).2.2.1 deadJob (by simp) rfl rfl⟩

/-- C7: the worker maps every runner outcome to a store transition — exit
code 0 to `complete_job` with the captured output, a non-zero exit to
`fail_job` with the captured stderr (or a constructed message when it is
empty), a timeout to `fail_job` with the timeout message, a launch error to
`fail_job` with the constructed error text — and every outcome is resolved
into one of these reports, never propagated as an unhandled fault. -/
theorem process_job_spec (store : List Job) (job : Job)
    (config : WorkerConfig) (now jitter : ℚ) :
    (∀ out err, process_job store job (.exited 0 out err) config now jitter =
        complete_job store job out err now) ∧
    (∀ (rc : Int) (out err : String), rc ≠ 0 →
        process_job store job (.exited rc out err) config now jitter =
          fail_job store job
            (if err = "" then "Job failed with non-zero exit code" else err)
            config now jitter) ∧
    (process_job store job .timedOut config now jitter =
        fail_job store job
          ("Job timed out after " ++ toString JOB_TIMEOUT_SECONDS ++ "s.")
          config now jitter) ∧
    (∀ msg, process_job store job (.launchError msg) config now jitter =
        fail_job store job ("Subprocess execution failed: " ++ msg)
          config now jitter) ∧
    (∀ result, (∃ out err,
          process_job store job result config now jitter =
            complete_job store job out err now) ∨
        (∃ e, process_job store job result config now jitter =
            fail_job store job e config now jitter)) := by
  refine ⟨fun out err => ?_, ?_, rfl, fun msg => rfl, ?_⟩
  · simp [process_job]
  · intro rc out err hrc
    simp only [process_job]
    rw [if_neg hrc]
  · intro result
    cases result with
    | exited rc out err =>
      by_cases hrc : rc = 0
      · subst hrc
        refine Or.inl ⟨out, err, ?_⟩
        simp [process_job]
      · refine Or.inr
          ⟨if err = "" then "Job failed with non-zero exit code" else err, ?_⟩
        simp only [process_job]
        rw [if_neg hrc]
    | timedOut => exact Or.inr ⟨_, rfl⟩
    | launchError msg => exact Or.inr ⟨_, rfl⟩

/-- Witness for `process_job_spec`: a non-zero exit with non-empty captured
stderr. -/
theorem process_job_spec_witness :
    (1 : Int) ≠ 0 ∧
    process_job [sampleJob] sampleJob (.exited 1 "" "oops") ⟨2⟩ 3 1 =
      fail_job [sampleJob] sampleJob
        (if "oops" = "" then "Job failed with non-zero exit code" else "oops")
        ⟨2⟩ 3 1 :=
  ⟨by norm_num,
   (process_job_spec [sampleJob] sampleJob ⟨2⟩ 3 1).2.1 1 "" "oops"
     (by norm_num)⟩

/-- The claim-query ordering is reflexive. -/
theorem prefers_refl (a : Job) : prefers a a :=
  Or.inr ⟨rfl, le_refl _⟩

/-- The claim-query ordering is transitive. -/
theorem prefers_trans {a b c : Job} (h₁ : prefers a b) (h₂ : prefers b c) :
    prefers a c := by
  rcases h₁ with h | ⟨e₁, l₁⟩ <;> rcases h₂ with h' | ⟨e₂, l₂⟩
  · exact Or.inl (h'.trans h)
  · exact Or.inl (e₂ ▸ h)
  · exact Or.inl (by rw [e₁]; exact h')
  · exact Or.inr ⟨e₁.trans e₂, l₁.trans l₂⟩

/-- `pickBetter` returns one of its two arguments. -/
theorem pickBetter_cases (a b : Job) :
    pickBetter a b = a ∨ pickBetter a b = b := by
  unfold pickBetter
  split
  · exact Or.inr rfl
  · exact Or.inl rfl

/-- The row `pickBetter` keeps sorts no later than its left argument. -/
theorem pickBetter_prefers_left (a b : Job) : prefers (pickBetter a b) a := by
  unfold pickBetter
  split
  · rename_i h
    rcases h with h | ⟨e, l⟩
    · exact Or.inl h
    · exact Or.inr ⟨e, le_of_lt l⟩
  · exact prefers_refl a

/-- The row `pickBetter` keeps sorts no later than its right argument. -/
theorem pickBetter_prefers_right (a b : Job) : prefers (pickBetter a b) b := by
  unfold pickBetter
  split
  · exact prefers_refl b
  · rename_i h
    push_neg at h
    obtain ⟨h₁, h₂⟩ := h
    rcases lt_or_eq_of_le h₁ with hlt | heq
    · exact Or.inl hlt
    · exact Or.inr ⟨heq.symm, h₂ heq⟩

/-- Folding `pickBetter` over a list yields the initial row or a member,
which sorts no later than the initial row and all members. -/
theorem foldl_pickBetter_spec (l : List Job) :
    ∀ a : Job, (l.foldl pickBetter a = a ∨ l.foldl pickBetter a ∈ l) ∧
      prefers (l.foldl pickBetter a) a ∧
      ∀ x ∈ l, prefers (l.foldl pickBetter a) x := by
  induction l with
  | nil =>
    intro a
    refine ⟨Or.inl rfl, prefers_refl a, ?_⟩
    intro x hx
    cases hx
  | cons j t ih =>
    intro a
    simp only [List.foldl_cons]
    obtain ⟨hmem, hpref, hall⟩ := ih (pickBetter a j)
    refine ⟨?_, ?_, ?_⟩
    · rcases hmem with h | h
      · rcases pickBetter_cases a j with hc | hc
        · exact Or.inl (h.trans hc)
        · exact Or.inr (by rw [h, hc]; exact List.mem_cons_self j t)
      · exact Or.inr (List.mem_cons_of_mem j h)
    · exact prefers_trans hpref (pickBetter_prefers_left a j)
    · intro x hx
      rcases List.mem_cons.mp hx with rfl | hx
      · exact prefers_trans hpref (pickBetter_prefers_right a x)
      · exact hall x hx

/-- Case analysis of the claim subquery: either no row is eligible and it
returns nothing, or it returns an eligible member of the store that sorts no
later than every eligible row. -/
theorem selectJob_cases (now : Time) (store : List Job) :
    (selectJob now store = none ∧ ∀ j ∈ store, eligible now j = false) ∨
    (∃ pre, selectJob now store = some pre ∧ pre ∈ store ∧
      eligible now pre = true ∧
      ∀ x ∈ store, eligible now x = true → prefers pre x) := by
  unfold selectJob
  cases hf : store.filter (eligible now) with
  | nil =>
    left
    refine ⟨rfl, ?_⟩
    intro j hj
    by_contra hne
    have he : eligible now j = true := by
      revert hne
      cases eligible now j <;> simp
    have hjf : j ∈ store.filter (eligible now) := List.mem_filter.mpr ⟨hj, he⟩
    rw [hf] at hjf
    cases hjf
  | cons h t =>
    right
    obtain ⟨hmem, hpref, hall⟩ := foldl_pickBetter_spec t h
    have hmem' : t.foldl pickBetter h ∈ h :: t := by
      rcases hmem with he | he
      · rw [he]; exact List.mem_cons_self h t
      · exact List.mem_cons_of_mem h he
    have hmemf : t.foldl pickBetter h ∈ store.filter (eligible now) := by
      rw [hf]; exact hmem'
    have hm := List.mem_filter.mp hmemf
    refine ⟨t.foldl pickBetter h, rfl, hm.1, hm.2, ?_⟩
    intro x hx hex
    have hxf : x ∈ store.filter (eligible now) := List.mem_filter.mpr ⟨hx, hex⟩
    rw [hf] at hxf
    rcases List.mem_cons.mp hxf with rfl | hxt
    · exact hpref
    · exact hall x hxt

/-- Unfolding of the claim eligibility condition. -/
theorem eligible_iff (now : Time) (j : Job) :
    eligible now j = true ↔
      j.state = .pending ∧ ∀ t, j.run_at = some t → t ≤ now := by
  unfold eligible
  cases hr : j.run_at with
  | none => simp
  | some t => simp

/-- C1: the claim selects, among rows that are `pending` with `run_at` null
or past, one that sorts no later than every eligible row under
`priority DESC, created_at ASC`; it returns that row with state
`processing`, attempts incremented by exactly one and `updated_at`
refreshed, never a row whose `run_at` is non-null and in the future, and the
store is rewritten accordingly; if no row is eligible it returns empty and
leaves the store unchanged. -/
theorem dequeue_spec (now : Time) (store : List Job) :
    ((∀ j ∈ store, eligible now j = false) →
        dequeue now store = (none, store)) ∧
    (∀ j, (dequeue now store).1 = some j →
      ∃ pre, pre ∈ store ∧ pre.state = .pending ∧
        (∀ t, pre.run_at = some t → t ≤ now) ∧
        (∀ x ∈ store, eligible now x = true → prefers pre x) ∧
        j = claimJob now pre ∧ j.state = .processing ∧
        j.attempts = pre.attempts + 1 ∧ j.updated_at = now ∧
        (∀ t, j.run_at = some t → t ≤ now) ∧
        (dequeue now store).2 =
          store.map fun r => if r.id = pre.id then claimJob now pre else r) := by
  rcases selectJob_cases now store with ⟨hnone, hall⟩ |
    ⟨pre, hsel, hmem, hel, hbest⟩
  · constructor
    · intro _
      unfold dequeue
      rw [hnone]
    · intro j hj
      unfold dequeue at hj
      rw [hnone] at hj
      simp at hj
  · constructor
    · intro hf
      rw [hf pre hmem] at hel
      cases hel
    · intro j hj
      unfold dequeue at hj
      rw [hsel] at hj
      have hj' : claimJob now pre = j := by simpa using hj
      obtain ⟨hpend, hrun⟩ := (eligible_iff now pre).mp hel
      subst hj'
      refine ⟨pre, hmem, hpend, hrun, hbest, rfl, rfl, rfl, rfl, ?_, ?_⟩
      · intro t ht
        exact hrun t ht
      · unfold dequeue
        rw [hsel]

/-- Witness for `dequeue_spec`: a store with two eligible rows of different
priorities; the higher-priority one is claimed. -/
theorem dequeue_spec_witness :
    (dequeue 5 [sampleJob, hiJob]).1 = some (claimJob 5 hiJob) ∧
    (∃ pre, pre ∈ [sampleJob, hiJob] ∧ pre.state = .pending ∧
      (∀ t, pre.run_at = some t → t ≤ 5) ∧
      (∀ x ∈ [sampleJob, hiJob], eligible 5 x = true → prefers pre x) ∧
      claimJob 5 hiJob = claimJob 5 pre ∧
      (claimJob 5 hiJob).state = .processing ∧
      (claimJob 5 hiJob).attempts = pre.attempts + 1 ∧
      (claimJob 5 hiJob).updated_at = 5 ∧
      (∀ t, (claimJob 5 hiJob).run_at = some t → t ≤ 5) ∧
      (dequeue 5 [sampleJob, hiJob]).2 =
        [sampleJob, hiJob].map fun r =>
          if r.id = pre.id then claimJob 5 pre else r) :=
  ⟨by decide,
   (dequeue_spec 5 [sampleJob, hiJob]).2 (claimJob 5 hiJob) (by decide)⟩

/-- C4 counterexample: a pending row with `run_at = 1` claimed at time 5 —
the claim succeeds (pending to processing) yet the post-claim row still has
`run_at = 1`: the claim UPDATE does not clear `run_at`. -/
theorem dequeue_runat_not_cleared :
    scheduledJob.run_at = some 1 ∧ scheduledJob.state = .pending ∧
    (dequeue 5 [scheduledJob]).1 = some (claimJob 5 scheduledJob) ∧
    (claimJob 5 scheduledJob).state = .processing ∧
    (claimJob 5 scheduledJob).run_at = some 1 := by
  refine ⟨rfl, rfl, by decide, rfl, rfl⟩

/-- C4 amended: a successful claim leaves the claimed job's `run_at`
unchanged — the returned post-claim row carries the selected row's `run_at`
verbatim; it is only the next `update_state` call that overwrites it. -/
theorem dequeue_preserves_runat (now : Time) (store : List Job) (j : Job)
    (h : (dequeue now store).1 = some j) :
    ∃ pre ∈ store, j = claimJob now pre ∧ j.run_at = pre.run_at := by
  rcases selectJob_cases now store with ⟨hnone, _⟩ | ⟨pre, hsel, hmem, _, _⟩
  · unfold dequeue at h
    rw [hnone] at h
    simp at h
  · unfold dequeue at h
    rw [hsel] at h
    have hj : claimJob now pre = j := by simpa using h
    refine ⟨pre, hmem, hj.symm, ?_⟩
    rw [← hj]
    rfl

/-- Witness for `dequeue_preserves_runat` at the scheduled sample row. -/
theorem dequeue_preserves_runat_witness :
    (dequeue 5 [scheduledJob]).1 = some (claimJob 5 scheduledJob) ∧
    ∃ pre ∈ [scheduledJob], claimJob 5 scheduledJob = claimJob 5 pre ∧
      (claimJob 5 scheduledJob).run_at = pre.run_at :=
  ⟨by decide,
   dequeue_preserves_runat 5 [scheduledJob] (claimJob 5 scheduledJob)
     (by decide)⟩

/-- Every row of an `update_state` result either carries the written state
or is an untouched row of the old store. -/
theorem mem_update_state (store : List Job) (job_id : String)
    (st : JobState) (out err : Option String) (ra : Option Time) (now : Time)
    (j : Job) (hj : j ∈ update_state store job_id st out err ra now) :
    j.state = st ∨ j ∈ store := by
  rcases List.mem_map.mp hj with ⟨r, hr, hrj⟩
  by_cases hid : r.id = job_id
  · rw [if_pos hid] at hrj
    left
    rw [← hrj]
    rfl
  · rw [if_neg hid] at hrj
    right
    rw [← hrj]
    exact hr

/-- Every row of a post-claim store is either `processing` or an untouched
row of the old store. -/
theorem mem_dequeue_snd (now : Time) (store : List Job) (j : Job)
    (hj : j ∈ (dequeue now store).2) : j.state = .processing ∨ j ∈ store := by
  have hcases : (dequeue now store).2 = store ∨
      ∃ pre, (dequeue now store).2 =
        store.map fun r => if r.id = pre.id then claimJob now pre else r := by
    unfold dequeue
    cases selectJob now store with
    | none => exact Or.inl rfl
    | some pre => exact Or.inr ⟨pre, rfl⟩
  rcases hcases with he | ⟨pre, he⟩
  · right
    rw [he] at hj
    exact hj
  · rw [he] at hj
    rcases List.mem_map.mp hj with ⟨r, hr, hrj⟩
    by_cases hid : r.id = pre.id
    · rw [if_pos hid] at hrj
      left
      rw [← hrj]
      rfl
    · rw [if_neg hid] at hrj
      right
      rw [← hrj]
      exact hr

/-- Every row of a post-requeue store is either `pending` or an untouched
row of the old store. -/
theorem mem_requeue_snd (store : List Job) (job_id : String) (now : Time)
    (j : Job) (hj : j ∈ (requeue store job_id now).2) :
    j.state = .pending ∨ j ∈ store := by
  rcases List.mem_map.mp hj with ⟨r, hr, hrj⟩
  by_cases hc : r.id = job_id ∧ r.state = .dead
  · rw [if_pos hc] at hrj
    left
    rw [← hrj]
    rfl
  · rw [if_neg hc] at hrj
    right
    rw [← hrj]
    exact hr

/-- No single core operation can introduce the `failed` state. -/
theorem applyOp_no_failed (store : List Job) (op : CoreOp)
    (h : ∀ j ∈ store, j.state ≠ .failed) :
    ∀ j ∈ applyOp store op, j.state ≠ .failed := by
  intro j hj
  cases op with
  | addOp id cmd mr pri ra now =>
    rcases List.mem_append.mp hj with hl | hr
    · exact h j hl
    · rw [List.mem_singleton] at hr
      subst hr
      exact fun hcon => JobState.noConfusion hcon
  | claimOp c now =>
    cases c with
    | true => exact h j hj
    | false =>
      rcases mem_dequeue_snd now store j hj with hs | hs
      · rw [hs]
        exact fun hcon => JobState.noConfusion hcon
      · exact h j hs
  | completeOp job out err now =>
    rcases mem_update_state store job.id .completed (some out) (some err)
        none now j hj with hs | hs
    · rw [hs]
      exact fun hcon => JobState.noConfusion hcon
    · exact h j hs
  | failOp job err config now jitter =>
    have hj' : j ∈ fail_job store job err config now jitter := hj
    unfold fail_job at hj'
    by_cases hc : job.max_retries ≤ job.attempts
    · rw [if_pos hc] at hj'
      rcases mem_update_state store job.id .dead none (some err) none now
          j hj' with hs | hs
      · rw [hs]
        exact fun hcon => JobState.noConfusion hcon
      · exact h j hs
    · rw [if_neg hc] at hj'
      rcases mem_update_state store job.id .pending none (some err)
          (some (calculate_backoff job config now jitter).2) now j hj' with
          hs | hs
      · rw [hs]
        exact fun hcon => JobState.noConfusion hcon
      · exact h j hs
  | requeueOp id now =>
    rcases mem_requeue_snd store id now j hj with hs | hs
    · rw [hs]
      exact fun hcon => JobState.noConfusion hcon
    · exact h j hs

/-- C10: although `failed` is a member of the persisted state enum, no store
reachable from the empty store through the core operations (`add`, claim
with or without contention, `complete_job`, `fail_job`, `requeue`) ever
contains a job in state `failed`. -/
theorem no_failed_reachable (ops : List CoreOp) :
    ∀ j ∈ runOps ops, j.state ≠ .failed := by
  have main : ∀ (l : List CoreOp) (s : List Job),
      (∀ j ∈ s, j.state ≠ .failed) →
      ∀ j ∈ l.foldl applyOp s, j.state ≠ .failed := by
    intro l
    induction l with
    | nil => exact fun s hs => hs
    | cons op t ih =>
      intro s hs
      simp only [List.foldl_cons]
      exact ih (applyOp s op) (applyOp_no_failed s op hs)
  intro j hj
  refine main ops [] ?_ j hj
  intro j hj
  cases hj

/-- Witness for `no_failed_reachable`: the store reached by a single
enqueue contains the new pending job, which is not `failed`. -/
theorem no_failed_reachable_witness :
    ({ id := "job-n", command := "true", state := .pending, attempts := 0,
       max_retries := 3, priority := 0, run_at := none, created_at := 0,
       updated_at := 0, stdout := none, stderr := none } : Job) ∈
      runOps [.addOp "job-n" "true" 3 0 none 0] ∧
    ({ id := "job-n", command := "true", state := .pending, attempts := 0,
       max_retries := 3, priority := 0, run_at := none, created_at := 0,
       updated_at := 0, stdout := none, stderr := none } : Job).state ≠
      .failed :=
  ⟨by decide,
   no_failed_reachable [.addOp "job-n" "true" 3 0 none 0] _ (by decide)⟩

end Queuectl
